import Mathlib

/-!
Verification development for the ygg intrusive search-tree library
(src/src/rbtree.cpp, src/src/energy.cpp, src/src/intervaltree.hpp).

The imperative, pointer-based C++ code is shallowly embedded as follows.
Nodes are caller-owned and intrusive, so a tree state is an array (here: a
list) of node records indexed by node id, plus the root link.  Every C++
statement that writes a field of a node becomes one functional update of
the store, in the same order as in the source, so pointer aliasing behaves
exactly as in C++.  Null pointers are `Option.none`.  Loops are written as
fuel recursion; all concrete runs use ample fuel.  The compile-time option
MULTIPLE (template dispatch of EqualityListHelper) is a boolean field of
the state.  The user comparator is specialised to `(· < ·)` on integer
keys, as in the concrete scenarios of the specification.
-/

namespace Ygg

/-- Node color, as in the Color enum of RBTreeNodeBase. -/
inductive Color where
  | red
  | black
deriving DecidableEq, Repr

/-- Intrusive red-black node header: the fields _rbt_left, _rbt_right,
_rbt_parent, _rbt_color of RBTreeNodeBase, the payload key, and the
equality-chain links _rbt_prev / _rbt_next (present when MULTIPLE). -/
structure RBNode where
  left : Option Nat := none
  right : Option Nat := none
  parent : Option Nat := none
  color : Color := Color.red
  key : Int := 0
  prev : Option Nat := none
  next : Option Nat := none
deriving DecidableEq, Repr

instance : Inhabited RBNode := ⟨{}⟩

/-- Read slot i of a node store (defaulting outside the arena; concrete
runs stay in range). -/
def getL {α : Type} [Inhabited α] (l : List α) (i : Nat) : α :=
  l.getD i default

/-- Replace slot i of a node store by f applied to it. -/
def modL {α : Type} (l : List α) (i : Nat) (f : α → α) : List α :=
  match l, i with
  | [], _ => []
  | x :: xs, 0 => f x :: xs
  | x :: xs, Nat.succ n => x :: modL xs n f

/-- A red-black tree object: the arena of caller-owned nodes, the root
pointer of RBTree, and the MULTIPLE compile-time option. -/
structure RBState where
  nodes : List RBNode
  root : Option Nat := none
  multiple : Bool := true
deriving DecidableEq, Repr

def RBState.get (s : RBState) (i : Nat) : RBNode := getL s.nodes i

def RBState.mod (s : RBState) (i : Nat) (f : RBNode → RBNode) : RBState :=
  { s with nodes := modL s.nodes i f }

def setRoot (s : RBState) (v : Option Nat) : RBState := { s with root := v }

/-- EqualityListHelper::equality_list_insert_after (no-op when MULTIPLE is
off, exactly as the false specialisation). -/
def eqListInsertAfter (s : RBState) (ni : Nat) (succ : Option Nat) : RBState :=
  if !s.multiple then s else
  match succ with
  | none => s.mod ni (fun n => { n with next := none, prev := none })
  | some sc =>
    let s1 := s.mod ni (fun n => { n with prev := (s.get sc).prev, next := some sc })
    let s2 := match (s1.get sc).prev with
      | none => s1
      | some pv => s1.mod pv (fun n => { n with next := some ni })
    s2.mod sc (fun n => { n with prev := some ni })

/-- EqualityListHelper::equality_list_insert_before (no-op when MULTIPLE is
off). -/
def eqListInsertBefore (s : RBState) (ni : Nat) (pred : Option Nat) : RBState :=
  if !s.multiple then s else
  match pred with
  | none => s.mod ni (fun n => { n with next := none, prev := none })
  | some pd =>
    let s1 := s.mod ni (fun n => { n with next := (s.get pd).next, prev := some pd })
    let s2 := match (s1.get pd).next with
      | none => s1
      | some nx => s1.mod nx (fun n => { n with prev := some ni })
    s2.mod pd (fun n => { n with next := some ni })

/-- EqualityListHelper::equality_list_delete_node (the node keeps its own
prev and next fields, as in the source). -/
def eqListDeleteNode (s : RBState) (ni : Nat) : RBState :=
  if !s.multiple then s else
  let s1 := match (s.get ni).next with
    | none => s
    | some nx => s.mod nx (fun n => { n with prev := (s.get ni).prev })
  match (s1.get ni).prev with
  | none => s1
  | some pv => s1.mod pv (fun n => { n with next := (s1.get ni).next })

/-- EqualityListHelper::equality_list_find_first: walk prev links to the
head of the chain (fuel-bounded). -/
def eqListFindFirstAux (s : RBState) (i : Nat) : Nat → Nat
  | 0 => i
  | fuel+1 =>
    match (s.get i).prev with
    | none => i
    | some pv => eqListFindFirstAux s pv fuel

def eqListFindFirst (s : RBState) (i : Nat) : Nat :=
  if !s.multiple then i else eqListFindFirstAux s i (s.nodes.length + 1)

/-- EqualityListHelper::equality_list_swap_if_necessary. -/
def eqListSwapIfNecessary (s : RBState) (i1 i2 : Nat) : RBState :=
  if !s.multiple then s else
  if (s.get i1).key < (s.get i2).key ∨ (s.get i2).key < (s.get i1).key then s
  else if (s.get i1).next = some i2 then
    let s1 := s.mod i1 (fun n => { n with next := (s.get i2).next })
    let s2 := s1.mod i2 (fun n => { n with prev := (s1.get i1).prev })
    let s3 := s2.mod i1 (fun n => { n with prev := some i2 })
    let s4 := s3.mod i2 (fun n => { n with next := some i1 })
    let s5 := match (s4.get i1).next with
      | none => s4
      | some x => s4.mod x (fun n => { n with prev := some i1 })
    match (s5.get i2).prev with
    | none => s5
    | some x => s5.mod x (fun n => { n with next := some i2 })
  else if (s.get i2).next = some i1 then
    let s1 := s.mod i2 (fun n => { n with next := (s.get i1).next })
    let s2 := s1.mod i1 (fun n => { n with prev := (s1.get i2).prev })
    let s3 := s2.mod i2 (fun n => { n with prev := some i1 })
    let s4 := s3.mod i1 (fun n => { n with next := some i2 })
    let s5 := match (s4.get i2).next with
      | none => s4
      | some x => s4.mod x (fun n => { n with prev := some i2 })
    match (s5.get i1).prev with
    | none => s5
    | some x => s5.mod x (fun n => { n with next := some i1 })
  else
    let p1 := (s.get i1).prev
    let p2 := (s.get i2).prev
    let s1 := (s.mod i2 (fun n => { n with prev := p1 })).mod i1 (fun n => { n with prev := p2 })
    let q1 := (s1.get i1).next
    let q2 := (s1.get i2).next
    let s2 := (s1.mod i2 (fun n => { n with next := q1 })).mod i1 (fun n => { n with next := q2 })
    let s3 := match (s2.get i1).next with
      | none => s2
      | some x => s2.mod x (fun n => { n with prev := some i1 })
    let s4 := match (s3.get i1).prev with
      | none => s3
      | some x => s3.mod x (fun n => { n with next := some i1 })
    let s5 := match (s4.get i2).next with
      | none => s4
      | some x => s4.mod x (fun n => { n with prev := some i2 })
    match (s5.get i2).prev with
    | none => s5
    | some x => s5.mod x (fun n => { n with next := some i2 })

/-- RBTree::rotate_left, field write for field write.  The case of a
missing right child is unreachable at the call sites (the C++ would
dereference null) and is modelled as the identity. -/
def rotateLeft (s : RBState) (p : Nat) : RBState :=
  match (s.get p).right with
  | none => s
  | some rc =>
    let s1 := s.mod p (fun n => { n with right := (s.get rc).left })
    let s2 := match (s1.get rc).left with
      | none => s1
      | some l => s1.mod l (fun n => { n with parent := some p })
    let s3 := s2.mod rc (fun n => { n with left := some p })
    let s4 := s3.mod rc (fun n => { n with parent := (s3.get p).parent })
    let s5 := match (s4.get p).parent with
      | none => setRoot s4 (some rc)
      | some pp =>
        if (s4.get pp).left = some p then s4.mod pp (fun n => { n with left := some rc })
        else s4.mod pp (fun n => { n with right := some rc })
    s5.mod p (fun n => { n with parent := some rc })

/-- RBTree::rotate_right. -/
def rotateRight (s : RBState) (p : Nat) : RBState :=
  match (s.get p).left with
  | none => s
  | some lc =>
    let s1 := s.mod p (fun n => { n with left := (s.get lc).right })
    let s2 := match (s1.get lc).right with
      | none => s1
      | some r => s1.mod r (fun n => { n with parent := some p })
    let s3 := s2.mod lc (fun n => { n with right := some p })
    let s4 := s3.mod lc (fun n => { n with parent := (s3.get p).parent })
    let s5 := match (s4.get p).parent with
      | none => setRoot s4 (some lc)
      | some pp =>
        if (s4.get pp).left = some p then s4.mod pp (fun n => { n with left := some lc })
        else s4.mod pp (fun n => { n with right := some lc })
    s5.mod p (fun n => { n with parent := some lc })

/-- RBTree::get_uncle (missing parent or grandparent modelled as none). -/
def getUncle (s : RBState) (i : Nat) : Option Nat :=
  match (s.get i).parent with
  | none => none
  | some p =>
    match (s.get p).parent with
    | none => none
    | some gp => if (s.get gp).left = some p then (s.get gp).right else (s.get gp).left

/-- Whether an optional node is red (null reads as not-red). -/
def isRed (s : RBState) (o : Option Nat) : Bool :=
  match o with
  | none => false
  | some i => (s.get i).color = Color.red

/-- RBTree::fixup_after_insert.  The while loop is the fuel recursion; the
post-loop rotation block is `fixupInsertFinish`. -/
def fixupInsertFinish (s : RBState) (i : Nat) : RBState :=
  match (s.get i).parent with
  | none => s
  | some p =>
    if (s.get p).color = Color.black then s
    else
      match (s.get p).parent with
      | none => s
      | some gp =>
        if (s.get gp).left = some p then
          let s2 :=
            if (s.get p).right = some i then
              let sa := rotateLeft s p
              sa.mod i (fun n => { n with color := Color.black })
            else s.mod p (fun n => { n with color := Color.black })
          let s3 := rotateRight s2 gp
          s3.mod gp (fun n => { n with color := Color.red })
        else
          let s2 :=
            if (s.get p).left = some i then
              let sa := rotateRight s p
              sa.mod i (fun n => { n with color := Color.black })
            else s.mod p (fun n => { n with color := Color.black })
          let s3 := rotateLeft s2 gp
          s3.mod gp (fun n => { n with color := Color.red })

def fixupAfterInsert (s : RBState) (i : Nat) : Nat → RBState
  | 0 => s
  | fuel+1 =>
    match (s.get i).parent with
    | none => s
    | some p =>
      if (s.get p).color = Color.red ∧ isRed s (getUncle s i) then
        let u := (getUncle s i).getD 0
        let s1 := s.mod p (fun n => { n with color := Color.black })
        let s2 := s1.mod u (fun n => { n with color := Color.black })
        match (s2.get p).parent with
        | none => s2
        | some gp =>
          match (s2.get gp).parent with
          | none => s2
          | some _ =>
            let s3 := s2.mod gp (fun n => { n with color := Color.red })
            fixupAfterInsert s3 gp fuel
      else fixupInsertFinish s i

/-- The descent loop of RBTree::insert_leaf_base: returns the final parent
(the last non-null node seen). -/
def descendLoop (s : RBState) (k : Int) : Option Nat → Option Nat → Nat → Option Nat
  | _, parent, 0 => parent
  | none, parent, _+1 => parent
  | some c, _, fuel+1 =>
    if (s.get c).key < k then descendLoop s k ((s.get c).right) (some c) fuel
    else descendLoop s k ((s.get c).left) (some c) fuel

/-- RBTree::insert_leaf_base, including the early return (with the parent
and color fields of the unlinked node already written) when MULTIPLE is off
and the landing parent compares equal. -/
def insertLeafBase (preferLeft : Bool) (s : RBState) (ni : Nat) (start : Option Nat) : RBState :=
  let s0 := s.mod ni (fun n => { n with right := none, left := none })
  let k := (s0.get ni).key
  match descendLoop s0 k start start (s0.nodes.length + 1) with
  | none =>
    let s1 := s0.mod ni (fun n => { n with parent := none, color := Color.black })
    let s2 := setRoot s1 (some ni)
    eqListInsertAfter s2 ni none
  | some p =>
    let s1 := s0.mod ni (fun n => { n with parent := some p, color := Color.red })
    let pk := (s1.get p).key
    let linked : Option RBState :=
      if k < pk then
        some (eqListInsertAfter (s1.mod p (fun n => { n with left := some ni })) ni none)
      else if pk < k then
        some (eqListInsertAfter (s1.mod p (fun n => { n with right := some ni })) ni none)
      else if !s1.multiple then none
      else if preferLeft then
        some (eqListInsertBefore (s1.mod p (fun n => { n with left := some ni })) ni (some p))
      else
        some (eqListInsertAfter (s1.mod p (fun n => { n with right := some ni })) ni (some p))
    match linked with
    | none => s1
    | some s2 => fixupAfterInsert s2 ni (s2.nodes.length + 1)

/-- RBTree::insert_leaf (left-biased). -/
def insertLeaf (s : RBState) (ni : Nat) (start : Option Nat) : RBState :=
  insertLeafBase true s ni start

/-- RBTree::insert(Node&). -/
def rbInsert (s : RBState) (ni : Nat) : RBState :=
  insertLeaf s ni s.root

/-- The upward walk of RBTree::insert(Node&, Node& hint): climb while the
new key is smaller than the key of the parent of the current node. -/
def walkUpAux (s : RBState) (k : Int) (i : Nat) : Nat → Nat
  | 0 => i
  | fuel+1 =>
    match (s.get i).parent with
    | none => i
    | some p => if k < (s.get p).key then walkUpAux s k p fuel else i

/-- RBTree::insert(Node&, Node& hint). -/
def rbInsertHinted (s : RBState) (ni : Nat) (hint : Nat) : RBState :=
  insertLeaf s ni (some (walkUpAux s ((s.get ni).key) hint (s.nodes.length + 1)))

/-- RBTree::swap_neighbors (p the parent, c the child), field write for
field write in source order. -/
def swapNeighbors (s : RBState) (p c : Nat) : RBState :=
  let s1 := s.mod c (fun n => { n with parent := (s.get p).parent })
  let s2 := s1.mod p (fun n => { n with parent := some c })
  let s3 := match (s2.get c).parent with
    | none => setRoot s2 (some c)
    | some cp =>
      if (s2.get cp).left = some p then s2.mod cp (fun n => { n with left := some c })
      else s2.mod cp (fun n => { n with right := some c })
  if (s3.get p).left = some c then
    let s4 := s3.mod p (fun n => { n with left := (s3.get c).left })
    let s5 := match (s4.get p).left with
      | none => s4
      | some x => s4.mod x (fun n => { n with parent := some p })
    let s6 := s5.mod c (fun n => { n with left := some p })
    let pr := (s6.get p).right
    let cr := (s6.get c).right
    let s7 := (s6.mod p (fun n => { n with right := cr })).mod c (fun n => { n with right := pr })
    let s8 := match (s7.get c).right with
      | none => s7
      | some x => s7.mod x (fun n => { n with parent := some c })
    match (s8.get p).right with
    | none => s8
    | some x => s8.mod x (fun n => { n with parent := some p })
  else
    let s4 := s3.mod p (fun n => { n with right := (s3.get c).right })
    let s5 := match (s4.get p).right with
      | none => s4
      | some x => s4.mod x (fun n => { n with parent := some p })
    let s6 := s5.mod c (fun n => { n with right := some p })
    let pl := (s6.get p).left
    let cl := (s6.get c).left
    let s7 := (s6.mod p (fun n => { n with left := cl })).mod c (fun n => { n with left := pl })
    let s8 := match (s7.get c).left with
      | none => s7
      | some x => s7.mod x (fun n => { n with parent := some c })
    match (s8.get p).left with
    | none => s8
    | some x => s8.mod x (fun n => { n with parent := some p })

/-- RBTree::swap_unrelated_nodes. -/
def swapUnrelatedNodes (s : RBState) (i1 i2 : Nat) : RBState :=
  let l1 := (s.get i1).left
  let l2 := (s.get i2).left
  let s1 := (s.mod i1 (fun n => { n with left := l2 })).mod i2 (fun n => { n with left := l1 })
  let s2 := match (s1.get i1).left with
    | none => s1
    | some x => s1.mod x (fun n => { n with parent := some i1 })
  let s3 := match (s2.get i2).left with
    | none => s2
    | some x => s2.mod x (fun n => { n with parent := some i2 })
  let r1 := (s3.get i1).right
  let r2 := (s3.get i2).right
  let s4 := (s3.mod i1 (fun n => { n with right := r2 })).mod i2 (fun n => { n with right := r1 })
  let s5 := match (s4.get i1).right with
    | none => s4
    | some x => s4.mod x (fun n => { n with parent := some i1 })
  let s6 := match (s5.get i2).right with
    | none => s5
    | some x => s5.mod x (fun n => { n with parent := some i2 })
  let p1 := (s6.get i1).parent
  let p2 := (s6.get i2).parent
  let s7 := (s6.mod i1 (fun n => { n with parent := p2 })).mod i2 (fun n => { n with parent := p1 })
  let s8 := match (s7.get i1).parent with
    | none => setRoot s7 (some i1)
    | some pp =>
      if (s7.get pp).right = some i2 then s7.mod pp (fun n => { n with right := some i1 })
      else s7.mod pp (fun n => { n with left := some i1 })
  match (s8.get i2).parent with
  | none => setRoot s8 (some i2)
  | some pp =>
    if (s8.get pp).right = some i1 then s8.mod pp (fun n => { n with right := some i2 })
    else s8.mod pp (fun n => { n with left := some i2 })

/-- RBTree::swap_nodes: dispatch on adjacency, swap the equality chain if
necessary, then exchange the two stored colors exactly when the
swap_colors argument is false (the `if (!swap_colors)` branch of the
source). -/
def swapNodes (s : RBState) (n1 n2 : Nat) (swapColors : Bool) : RBState :=
  let s1 :=
    if (s.get n1).parent = some n2 then swapNeighbors s n2 n1
    else if (s.get n2).parent = some n1 then swapNeighbors s n1 n2
    else swapUnrelatedNodes s n1 n2
  let s2 := eqListSwapIfNecessary s1 n1 n2
  if !swapColors then
    let c1 := (s2.get n1).color
    let c2 := (s2.get n2).color
    (s2.mod n1 (fun n => { n with color := c2 })).mod n2 (fun n => { n with color := c1 })
  else s2

/-- Leftmost node reachable by left links from i (fuel-bounded). -/
def leftmostFrom (s : RBState) (i : Nat) : Nat → Nat
  | 0 => i
  | fuel+1 =>
    match (s.get i).left with
    | none => i
    | some l => leftmostFrom s l fuel

/-- Rightmost node reachable by right links from i (fuel-bounded). -/
def rightmostFrom (s : RBState) (i : Nat) : Nat → Nat
  | 0 => i
  | fuel+1 =>
    match (s.get i).right with
    | none => i
    | some r => rightmostFrom s r fuel

/-- Whether an optional node is black or absent (the null-or-black tests
of fixup_after_delete). -/
def blackOrNil (s : RBState) (o : Option Nat) : Bool :=
  match o with
  | none => true
  | some i => (s.get i).color = Color.black

/-- Cases 2, 4, 5, 6 of RBTree::fixup_after_delete (the straight-line code
after the propagation loop). -/
def fixupDeleteFinish (s : RBState) (parent : Nat) (deletedLeft : Bool) (sb0 : Nat) : RBState :=
  let step2 : RBState × Nat :=
    if (s.get sb0).color = Color.red then
      let s1 := s.mod sb0 (fun n => { n with color := Color.black })
      let s2 := s1.mod parent (fun n => { n with color := Color.red })
      if deletedLeft then
        let s3 := rotateLeft s2 parent
        (s3, ((s3.get parent).right).getD sb0)
      else
        let s3 := rotateRight s2 parent
        (s3, ((s3.get parent).left).getD sb0)
    else (s, sb0)
  let s := step2.1
  let sb := step2.2
  if (s.get sb).color = Color.black ∧ blackOrNil s ((s.get sb).left) ∧ blackOrNil s ((s.get sb).right) then
    let s1 := s.mod parent (fun n => { n with color := Color.black })
    s1.mod sb (fun n => { n with color := Color.red })
  else if deletedLeft then
    let step5 : RBState × Nat :=
      if blackOrNil s ((s.get sb).right) then
        let s1 := rotateRight s sb
        let s2 := s1.mod sb (fun n => { n with color := Color.red })
        let sb2 := ((s2.get sb).parent).getD sb
        (s2.mod sb2 (fun n => { n with color := Color.black }), sb2)
      else (s, sb)
    let s := step5.1
    let sb := step5.2
    let s1 := rotateLeft s parent
    let cp := (s1.get parent).color
    let cs := (s1.get sb).color
    let s2 := (s1.mod parent (fun n => { n with color := cs })).mod sb (fun n => { n with color := cp })
    match (s2.get sb).right with
    | none => s2
    | some x => s2.mod x (fun n => { n with color := Color.black })
  else
    let step5 : RBState × Nat :=
      if blackOrNil s ((s.get sb).left) then
        let s1 := rotateLeft s sb
        let s2 := s1.mod sb (fun n => { n with color := Color.red })
        let sb2 := ((s2.get sb).parent).getD sb
        (s2.mod sb2 (fun n => { n with color := Color.black }), sb2)
      else (s, sb)
    let s := step5.1
    let sb := step5.2
    let s1 := rotateRight s parent
    let cp := (s1.get parent).color
    let cs := (s1.get sb).color
    let s2 := (s1.mod parent (fun n => { n with color := cs })).mod sb (fun n => { n with color := cp })
    match (s2.get sb).left with
    | none => s2
    | some x => s2.mod x (fun n => { n with color := Color.black })

/-- RBTree::fixup_after_delete.  The propagation loop (case 3) is the fuel
recursion; a missing sibling cannot occur after a black deletion and is
modelled as the identity. -/
def fixupAfterDelete (s : RBState) (parent : Nat) (deletedLeft : Bool) : Nat → RBState
  | 0 => s
  | fuel+1 =>
    let sib := if deletedLeft then (s.get parent).right else (s.get parent).left
    match sib with
    | none => s
    | some sb =>
      if (s.get parent).color = Color.black ∧ (s.get sb).color = Color.black ∧
          blackOrNil s ((s.get sb).left) ∧ blackOrNil s ((s.get sb).right) then
        let s1 := s.mod sb (fun n => { n with color := Color.red })
        match (s1.get parent).parent with
        | none => s1
        | some gp => fixupAfterDelete s1 gp ((s1.get gp).left = some parent) fuel
      else fixupDeleteFinish s parent deletedLeft sb

/-- RBTree::remove_to_leaf. -/
def removeToLeaf (s : RBState) (ni : Nat) : RBState :=
  let fuel := s.nodes.length + 1
  let child : Nat :=
    match (s.get ni).right, (s.get ni).left with
    | some r, some _ => leftmostFrom s r fuel
    | none, some l => l
    | _, _ => ni
  let s1 := if child ≠ ni then swapNodes s ni child false else s
  match (s1.get ni).right with
  | some rc =>
    let s2 := swapNodes s1 ni rc true
    let s3 := s2.mod rc (fun n => { n with color := Color.black })
    let s4 := s3.mod rc (fun n => { n with right := none })
    eqListDeleteNode s4 ni
  | none =>
    match (s1.get ni).parent with
    | none => setRoot s1 none
    | some pa =>
      let deletedLeft := (s1.get pa).left = some ni
      let s2 :=
        if deletedLeft then s1.mod pa (fun n => { n with left := none })
        else s1.mod pa (fun n => { n with right := none })
      let s3 := eqListDeleteNode s2 ni
      if (s3.get ni).color = Color.black then fixupAfterDelete s3 pa deletedLeft fuel
      else s3

/-- RBTree::remove. -/
def rbRemove (s : RBState) (ni : Nat) : RBState :=
  removeToLeaf s ni

/-- RBTree::find (descent; on an equality hit, return the head of the
equality chain). -/
def rbFindAux (s : RBState) (q : Int) : Option Nat → Nat → Option Nat
  | none, _ => none
  | some _, 0 => none
  | some c, fuel+1 =>
    if q < (s.get c).key then rbFindAux s q ((s.get c).left) fuel
    else if (s.get c).key < q then rbFindAux s q ((s.get c).right) fuel
    else some (eqListFindFirst s c)

def rbFind (s : RBState) (q : Int) : Option Nat :=
  rbFindAux s q s.root (s.nodes.length + 1)

/-- RBTree::upper_bound: descend keeping the last node where the query was
smaller; on an equality hit, step to the right child and, if it exists,
return it immediately. -/
def rbUpperBoundAux (s : RBState) (q : Int) : Option Nat → Option Nat → Nat → Option Nat
  | none, bound, _ => bound
  | some _, bound, 0 => bound
  | some c, bound, fuel+1 =>
    if q < (s.get c).key then rbUpperBoundAux s q ((s.get c).left) (some c) fuel
    else if (s.get c).key < q then rbUpperBoundAux s q ((s.get c).right) bound fuel
    else
      match (s.get c).right with
      | none => bound
      | some r => some r

def rbUpperBound (s : RBState) (q : Int) : Option Nat :=
  rbUpperBoundAux s q s.root none (s.nodes.length + 1)

/-- utilities::IteratorHelperUnspecialized::step_forward. -/
def stepForward (s : RBState) (i : Nat) (fuel : Nat) : Option Nat :=
  match (s.get i).right with
  | some r => some (leftmostFrom s r fuel)
  | none => stepUp s i fuel
where
  stepUp (s : RBState) (i : Nat) : Nat → Option Nat
    | 0 => none
    | fuel+1 =>
      match (s.get i).parent with
      | none => none
      | some p =>
        if (s.get p).right = some i then stepUp s p fuel
        else some p

/-- Forward in-order iteration of the tree (begin to end), as node ids. -/
def rbInorderIds (s : RBState) : List Nat :=
  match s.root with
  | none => []
  | some r => go s (some (leftmostFrom s r (s.nodes.length + 1))) (s.nodes.length + 1)
where
  go (s : RBState) : Option Nat → Nat → List Nat
    | none, _ => []
    | some _, 0 => []
    | some i, fuel+1 => i :: go s (stepForward s i (s.nodes.length + 1)) fuel

/-- Forward in-order iteration, as keys. -/
def rbInorderKeys (s : RBState) : List Int :=
  (rbInorderIds s).map (fun i => (s.get i).key)

/-- Operations of the public RBTree interface used by the claims. -/
inductive ROp where
  | ins (i : Nat)
  | insH (i h : Nat)
  | rem (i : Nat)
deriving DecidableEq, Repr

def rbStep (s : RBState) : ROp → RBState
  | ROp.ins i => rbInsert s i
  | ROp.insH i h => rbInsertHinted s i h
  | ROp.rem i => rbRemove s i

def rbRun (s : RBState) : List ROp → RBState
  | [] => s
  | op :: rest => rbRun (rbStep s op) rest

/-- An arena of fresh caller-owned nodes with the given keys. -/
def rbInit (keys : List Int) (multiple : Bool) : RBState :=
  { nodes := keys.map (fun k => { key := k }), root := none, multiple := multiple }

/-- RBTree::verify_black_root. -/
def verifyBlackRoot (s : RBState) : Bool :=
  match s.root with
  | none => true
  | some r => (s.get r).color = Color.black

/-- RBTree::verify_black_paths: returns the black length of the subtree at
i when all paths agree, none on a violation (fuel-bounded recursion). -/
def verifyBlackPathsAux (s : RBState) : Option Nat → Nat → Option Nat
  | none, _ => some 0
  | some _, 0 => none
  | some i, fuel+1 =>
    match verifyBlackPathsAux s ((s.get i).left) fuel, verifyBlackPathsAux s ((s.get i).right) fuel with
    | some ll, some rl =>
      if ll = rl then
        if (s.get i).color = Color.black then some (ll + 1) else some ll
      else none
    | _, _ => none

def verifyBlackPaths (s : RBState) : Bool :=
  (verifyBlackPathsAux s s.root (s.nodes.length + 1)).isSome

/-- RBTree::verify_red_black: no red node has a red child. -/
def verifyRedBlack (s : RBState) : Option Nat → Nat → Bool
  | none, _ => true
  | some _, 0 => false
  | some i, fuel+1 =>
    (if (s.get i).color = Color.red then
      !(isRed s ((s.get i).left)) && !(isRed s ((s.get i).right))
    else true) &&
    verifyRedBlack s ((s.get i).left) fuel && verifyRedBlack s ((s.get i).right) fuel

/-- The parent-linkage part of RBTree::verify_tree: each child points back
to its parent (checked structurally from the root). -/
def verifyParentLinks (s : RBState) : Option Nat → Nat → Bool
  | none, _ => true
  | some _, 0 => false
  | some i, fuel+1 =>
    (match (s.get i).left with
     | none => true
     | some l => (s.get l).parent = some i) &&
    (match (s.get i).right with
     | none => true
     | some r => (s.get r).parent = some i) &&
    verifyParentLinks s ((s.get i).left) fuel && verifyParentLinks s ((s.get i).right) fuel

/-- RBTree::verify_order: no left child larger, no right child smaller. -/
def verifyOrder (s : RBState) : Option Nat → Nat → Bool
  | none, _ => true
  | some _, 0 => false
  | some i, fuel+1 =>
    (match (s.get i).left with
     | none => true
     | some l => !((s.get i).key < (s.get l).key)) &&
    (match (s.get i).right with
     | none => true
     | some r => !((s.get r).key < (s.get i).key)) &&
    verifyOrder s ((s.get i).left) fuel && verifyOrder s ((s.get i).right) fuel

/-- The conjunction of the structural red-black checks of
RBTree::verify_integrity (black root, equal black paths, no red-red edge,
parent linkage). -/
def rbInvariantOk (s : RBState) : Bool :=
  verifyBlackRoot s && verifyBlackPaths s &&
  verifyRedBlack s s.root (s.nodes.length + 1) &&
  verifyParentLinks s s.root (s.nodes.length + 1)

/-!
Energy tree (src/src/energy.cpp).  Same store-based embedding.  The node
fields are _et_left, _et_right, _et_parent, _et_size, _et_energy plus the
payload key.  The tree object owns the root pointer and the reusable
rebuild_buffer (a vector of node pointers whose old contents persist
across resizes, exactly as std::vector).  The test
`energy > 0.5 * size` on size_t values is exact as `2 * energy > size`.
Runs are in `Except String`: a null-pointer dereference or an infinite
loop of the C++ (both reachable) yields an error value. -/

/-- Intrusive energy-tree node header. -/
structure ETNode where
  left : Option Nat := none
  right : Option Nat := none
  parent : Option Nat := none
  size : Nat := 0
  energy : Nat := 0
  key : Int := 0
deriving DecidableEq, Repr

instance : Inhabited ETNode := ⟨{}⟩

/-- An EnergyTree object: node arena, root pointer, rebuild buffer. -/
structure ETState where
  nodes : List ETNode
  root : Option Nat := none
  buffer : List (Option Nat) := []
deriving DecidableEq, Repr

def ETState.get (s : ETState) (i : Nat) : ETNode := getL s.nodes i

def ETState.mod (s : ETState) (i : Nat) (f : ETNode → ETNode) : ETState :=
  { s with nodes := modL s.nodes i f }

def deref (msg : String) : Option Nat → Except String Nat
  | none => Except.error msg
  | some i => Except.ok i

/-- std::vector::resize on the rebuild buffer: keep the prefix, pad new
cells with null. -/
def bufResize (b : List (Option Nat)) (n : Nat) : List (Option Nat) :=
  (List.range n).map (fun i => b.getD i none)

def bufGet (b : List (Option Nat)) (i : Nat) : Option Nat := b.getD i none

/-- Checked buffer write (an out-of-range vector write is undefined in the
C++ and surfaces as an error here). -/
def bufWrite (b : List (Option Nat)) (i : Nat) (v : Option Nat) : Except String (List (Option Nat)) :=
  if i < b.length then Except.ok (modL b i (fun _ => v)) else Except.error "buffer write out of range"

/-- The integer ceil(log2 m) for positive m, written structurally so that
it reduces in the kernel: smallest L with m at most 2 ^ L (this is the
exact value of (int)std::ceil(std::log2(m)) at these magnitudes). -/
def clog2Aux : Nat → Nat → Nat
  | _, 0 => 0
  | m, f+1 => if m ≤ 1 then 0 else clog2Aux ((m + 1) / 2) f + 1

def clog2 (m : Nat) : Nat := clog2Aux m m

/-- count_trailing_zeros (__builtin_ctz), called on positive counters. -/
def ctzAux (n : Nat) : Nat → Nat
  | 0 => 0
  | f+1 => if n % 2 = 1 ∨ n = 0 then 0 else ctzAux (n / 2) f + 1

def ctz (n : Nat) : Nat := ctzAux n n

/-- Leftmost descent (`while (x->left) x = x->left`); an error signals the
infinite loop the C++ runs into on a self-linked node. -/
def etLeftmost (s : ETState) (i : Nat) : Nat → Except String Nat
  | 0 => Except.error "non-terminating leftmost descent"
  | f+1 =>
    match (s.get i).left with
    | none => Except.ok i
    | some l => etLeftmost s l f

def etRightmost (s : ETState) (i : Nat) : Nat → Except String Nat
  | 0 => Except.error "non-terminating rightmost descent"
  | f+1 =>
    match (s.get i).right with
    | none => Except.ok i
    | some r => etRightmost s r f

/-- In-order iterator step of the energy tree (same helper as the RB
iterator); `Except.ok none` is the end iterator. -/
def etStepForward (s : ETState) (i : Nat) (fuel : Nat) : Except String (Option Nat) :=
  match (s.get i).right with
  | some r => do
    let l ← etLeftmost s r fuel
    Except.ok (some l)
  | none => stepUp s i fuel
where
  stepUp (s : ETState) (i : Nat) : Nat → Except String (Option Nat)
    | 0 => Except.error "non-terminating iterator ascent"
    | f+1 =>
      match (s.get i).parent with
      | none => Except.ok none
      | some p =>
        if (s.get p).right = some i then stepUp s p f
        else Except.ok (some p)

/-- The in-order placement loop of EnergyTree::rebuild_below: walk the
iterator from the smallest to the largest node of the subtree, placing the
k-th node at the slot computed from count_trailing_zeros of its 1-based
position. -/
def etPlaceLoop (s : ETState) (b : List (Option Nat)) (L F : Nat) (it largest counter : Nat) :
    Nat → Except String (List (Option Nat))
  | 0 => Except.error "non-terminating rebuild placement loop"
  | fuel+1 =>
    if it = largest then Except.ok b
    else do
      let itn ← etStepForward s it (s.nodes.length + 1)
      let it2 ← deref "dereference of end iterator in rebuild" itn
      let counter := counter + 1
      let level := ctz counter
      let prevLevels := 2 ^ (L - 1 - level) - 1
      let thisLevel := prevLevels + 1
      let levelOffset := F - prevLevels - thisLevel
      let idx := counter >>> (level + 1)
      let b ← bufWrite b (levelOffset + idx) (some it2)
      etPlaceLoop s b L F it2 largest counter fuel

/-- The bottom-level pair linking of rebuild_below (steps of two through
the partially filled bottom level). -/
def etLinkBottomPairs (s : ETState) (b : List (Option Nat)) (upper : Nat) :
    List Nat → Except String ETState
  | [] => Except.ok s
  | ii :: rest => do
    let i := 2 * ii
    let u ← deref "null dereference linking bottom level" (bufGet b (upper + i / 2))
    let s := s.mod u (fun n => { n with left := bufGet b i, right := bufGet b (i + 1), size := 3, energy := 0 })
    let x ← deref "null dereference linking bottom level" (bufGet b i)
    let s := s.mod x (fun n =>
      { n with left := none, size := 1, energy := 0, right := none, parent := bufGet b (upper + i / 2) })
    let y ← deref "null dereference linking bottom level" (bufGet b (i + 1))
    let s := s.mod y (fun n =>
      { n with left := none, right := none, parent := bufGet b (upper + i / 2), size := 1, energy := 0 })
    etLinkBottomPairs s b upper rest

/-- One level of the bottom-up climb of rebuild_below. -/
def etClimbPairs (s : ETState) (b : List (Option Nat)) (lower upper : Nat) :
    List Nat → Except String ETState
  | [] => Except.ok s
  | ii :: rest => do
    let i := 2 * ii
    let u ← deref "null dereference climbing levels" (bufGet b (upper + i / 2))
    let s := s.mod u (fun n => { n with left := bufGet b (lower + i), right := bufGet b (lower + i + 1) })
    let x ← deref "null pointer dereference in rebuild" (bufGet b (lower + i))
    let y ← deref "null pointer dereference in rebuild" (bufGet b (lower + i + 1))
    let s := s.mod u (fun n => { n with size := (s.get x).size + (s.get y).size + 1, energy := 0 })
    let s := s.mod x (fun n => { n with parent := some u })
    let s := s.mod y (fun n => { n with parent := some u })
    etClimbPairs s b lower upper rest

def etClimbLevels (s : ETState) (b : List (Option Nat)) (L F : Nat) (lowerIn upper : Nat) :
    List Nat → Except String ETState
  | [] => Except.ok s
  | level :: rest => do
    let lower2 := upper
    let upper2 := F - 2 ^ (L - 1 - level) + 1
    let cls := upper2 - lower2
    let s ← etClimbPairs s b lower2 upper2 (List.range (cls / 2))
    etClimbLevels s b L F lower2 upper2 rest

/-- EnergyTree::rebuild_below.  tree_levels is
(int)ceil(log2(size + 1)), which equals Nat.clog 2 (size + 1) for every
size reachable here (the double computation is exact at this magnitude).
The scratch buffer keeps its previous contents across the resize, exactly
as the std::vector member does. -/
def rebuildBelow (s : ETState) (nd : Nat) : Except String ETState := do
  let L := clog2 ((s.get nd).size + 1)
  let F := 2 ^ L - 1
  let b := bufResize s.buffer F
  let originalParent := (s.get nd).parent
  let originalSize := (s.get nd).size
  let smallest ← etLeftmost s nd (s.nodes.length + 1)
  let largest ← etRightmost s nd (s.nodes.length + 1)
  let b ← bufWrite b 0 (some smallest)
  let b ← etPlaceLoop s b L F smallest largest 1 (s.nodes.length + 2)
  let upper0 := (F + 1) / 2
  let bottom := upper0 - (F - (s.get nd).size)
  let s ←
    if L > 1 then do
      let s ← etLinkBottomPairs s b upper0 (List.range (bottom / 2))
      let iAfterPairs := 2 * (bottom / 2)
      let (s, iFinal) ←
        if iAfterPairs < bottom then do
          let u ← deref "null dereference linking bottom singleton" (bufGet b (upper0 + iAfterPairs / 2))
          let s := s.mod u (fun n => { n with left := bufGet b iAfterPairs, right := none, size := 2, energy := 0 })
          let x ← deref "null dereference linking bottom singleton" (bufGet b iAfterPairs)
          let s := s.mod x (fun n =>
            { n with left := none, right := none, parent := bufGet b (upper0 + iAfterPairs / 2), size := 1, energy := 0 })
          Except.ok (s, iAfterPairs + 2)
        else Except.ok (s, iAfterPairs)
      let jStart := iFinal / 2
      let jEnd := 2 ^ (L - 2) - 1
      let s ← goJ s b ((List.range jEnd).drop jStart)
      etClimbLevels s b L F 0 upper0 ((List.range (L - 1)).drop 1)
    else Except.ok s
  let back ← deref "empty rebuild buffer" (bufGet b (F - 1))
  let s := s.mod back (fun n => { n with parent := originalParent })
  let s ←
    match originalParent with
    | none => Except.ok { s with root := some back }
    | some op =>
      if (s.get op).left = some nd then Except.ok (s.mod op (fun n => { n with left := some back }))
      else Except.ok (s.mod op (fun n => { n with right := some back }))
  let s := s.mod back (fun n => { n with size := originalSize, energy := 0 })
  Except.ok { s with buffer := b }
where
  goJ (s : ETState) (b : List (Option Nat)) : List Nat → Except String ETState
    | [] => Except.ok s
    | j :: rest => do
      let x ← deref "null dereference zeroing level slots" (bufGet b j)
      let s := s.mod x (fun n => { n with left := none, right := none, size := 1, energy := 0 })
      goJ s b rest

/-- The descent loop of EnergyTree::insert: bump size and energy of every
node on the path, record the shallowest node that becomes overcharged,
link the new node at the first null slot. -/
def etInsertLoop (s : ETState) (ni cur : Nat) (rebuildAt : Option Nat) :
    Nat → Except String (ETState × Option Nat)
  | 0 => Except.error "non-terminating insert descent"
  | fuel+1 =>
    let s := s.mod cur (fun n => { n with size := n.size + 1, energy := n.energy + 1 })
    let rebuildAt :=
      if rebuildAt = none ∧ 2 * (s.get cur).energy > (s.get cur).size then some cur else rebuildAt
    if (s.get cur).key < (s.get ni).key then
      match (s.get cur).right with
      | some r => etInsertLoop s ni r rebuildAt fuel
      | none =>
        let s := s.mod cur (fun n => { n with right := some ni })
        Except.ok (s.mod ni (fun n => { n with parent := some cur }), rebuildAt)
    else
      match (s.get cur).left with
      | some l => etInsertLoop s ni l rebuildAt fuel
      | none =>
        let s := s.mod cur (fun n => { n with left := some ni })
        Except.ok (s.mod ni (fun n => { n with parent := some cur }), rebuildAt)

/-- EnergyTree::insert. -/
def etInsert (s : ETState) (ni : Nat) : Except String ETState := do
  let s := s.mod ni (fun n => { n with size := 1, energy := 0, left := none, right := none })
  match s.root with
  | none => Except.ok { s.mod ni (fun n => { n with parent := none }) with root := some ni }
  | some r => do
    let (s, rebuildAt) ← etInsertLoop s ni r none (s.nodes.length + 1)
    match rebuildAt with
    | none => Except.ok s
    | some ra => rebuildBelow s ra

/-- The ancestor walk of EnergyTree::remove: every ancestor loses one unit
of size and gains one of energy; an overcharged ancestor is recorded
(shallowest wins because the walk keeps overwriting on the way up). -/
def etRemoveAncestorLoop (s : ETState) (cur : Nat) (rebuildAt : Option Nat) (upwards : Bool) :
    Nat → Except String (ETState × Option Nat × Bool)
  | 0 => Except.error "non-terminating ancestor walk"
  | fuel+1 =>
    match (s.get cur).parent with
    | none => Except.ok (s, rebuildAt, upwards)
    | some p =>
      let s := s.mod p (fun n => { n with size := n.size - 1, energy := n.energy + 1 })
      if 2 * (s.get p).energy > (s.get p).size then
        etRemoveAncestorLoop s p (some p) true fuel
      else etRemoveAncestorLoop s p rebuildAt upwards fuel

/-- The successor descent of EnergyTree::remove through the left subtree
(largest of the less-or-equal children).  The overcharge test reads the
fields of the node being removed (`cur`), exactly as the source does. -/
def etSuccDescentR (s : ETState) (node child : Nat) (rebuildAt : Option Nat) :
    Nat → Except String (ETState × Nat × Option Nat)
  | 0 => Except.error "non-terminating successor descent"
  | fuel+1 =>
    match (s.get child).right with
    | none => Except.ok (s, child, rebuildAt)
    | some r =>
      let s := s.mod child (fun n => { n with size := n.size - 1, energy := n.energy + 1 })
      let rebuildAt :=
        if rebuildAt = none ∧ 2 * (s.get node).energy > (s.get node).size then some child
        else rebuildAt
      etSuccDescentR s node r rebuildAt fuel

/-- Mirror image: smallest of the greater-or-equal children. -/
def etSuccDescentL (s : ETState) (node child : Nat) (rebuildAt : Option Nat) :
    Nat → Except String (ETState × Nat × Option Nat)
  | 0 => Except.error "non-terminating successor descent"
  | fuel+1 =>
    match (s.get child).left with
    | none => Except.ok (s, child, rebuildAt)
    | some l =>
      let s := s.mod child (fun n => { n with size := n.size - 1, energy := n.energy + 1 })
      let rebuildAt :=
        if rebuildAt = none ∧ 2 * (s.get node).energy > (s.get node).size then some child
        else rebuildAt
      etSuccDescentL s node l rebuildAt fuel

/-- EnergyTree::remove. -/
def etRemove (s : ETState) (ni : Nat) : Except String ETState := do
  let (s, rebuildAt, upwards) ← etRemoveAncestorLoop s ni none false (s.nodes.length + 1)
  let (s, rebuildAt) ←
    if (s.get ni).left = none ∧ (s.get ni).right = none then
      match (s.get ni).parent with
      | none => Except.ok ({ s with root := none }, rebuildAt)
      | some p =>
        if (s.get p).left = some ni then
          Except.ok (s.mod p (fun n => { n with left := none }), rebuildAt)
        else Except.ok (s.mod p (fun n => { n with right := none }), rebuildAt)
    else do
      let (s, child, rebuildAt) ←
        match (s.get ni).left with
        | some l => etSuccDescentR s ni l rebuildAt (s.nodes.length + 1)
        | none => do
          let r ← deref "missing child" ((s.get ni).right)
          etSuccDescentL s ni r rebuildAt (s.nodes.length + 1)
      let s ←
        if (s.get ni).left ≠ none ∧ (s.get child).left ≠ none then do
          let cp ← deref "null parent in splice" ((s.get child).parent)
          let s :=
            if (s.get cp).right = some child then s.mod cp (fun n => { n with right := (s.get child).left })
            else s.mod cp (fun n => { n with left := (s.get child).left })
          let cl ← deref "missing left child in splice" ((s.get child).left)
          Except.ok (s.mod cl (fun n => { n with parent := (s.get child).parent }))
        else if (s.get ni).left = none ∧ (s.get child).right ≠ none then do
          let cp ← deref "null parent in splice" ((s.get child).parent)
          let s :=
            if (s.get cp).left = some child then s.mod cp (fun n => { n with left := (s.get child).right })
            else s.mod cp (fun n => { n with right := (s.get child).right })
          let cr ← deref "missing right child in splice" ((s.get child).right)
          Except.ok (s.mod cr (fun n => { n with parent := (s.get child).parent }))
        else Except.ok s
      let s := s.mod child (fun n => { n with left := (s.get ni).left })
      let s := s.mod child (fun n => { n with right := (s.get ni).right })
      let s ←
        match (s.get ni).parent with
        | none => Except.ok { s with root := some child }
        | some np =>
          if (s.get np).left = some ni then Except.ok (s.mod np (fun n => { n with left := some child }))
          else Except.ok (s.mod np (fun n => { n with right := some child }))
      let s := s.mod child (fun n => { n with parent := (s.get ni).parent })
      let s := s.mod child (fun n => { n with energy := (s.get ni).energy + 1 })
      let s := s.mod child (fun n => { n with size := (s.get ni).size - 1 })
      let rebuildAt :=
        if ¬upwards ∧ 2 * (s.get child).energy > (s.get child).size then some child else rebuildAt
      Except.ok (s, rebuildAt)
  match rebuildAt with
  | none => Except.ok s
  | some ra => rebuildBelow s ra

/-- EnergyTree::empty. -/
def etEmpty (s : ETState) : Bool := s.root = none

/-- The size equation checked by dbg_verify_sizes for one node. -/
def optETSize (s : ETState) (o : Option Nat) : Nat :=
  match o with
  | none => 0
  | some j => (s.get j).size

def etNodeSizeOk (s : ETState) (i : Nat) : Bool :=
  (s.get i).size = 1 + optETSize s ((s.get i).left) + optETSize s ((s.get i).right)

/-- The per-node energy bound of the specification:
energy(n) less-or-equal 0.5 times size(n). -/
def etNodeEnergyOk (s : ETState) (i : Nat) : Bool :=
  2 * (s.get i).energy ≤ (s.get i).size

/-- Structural in-order listing of an energy tree (fuel-bounded). -/
def etInorderFrom (s : ETState) : Option Nat → Nat → List Nat
  | none, _ => []
  | some _, 0 => []
  | some i, fuel+1 =>
    etInorderFrom s ((s.get i).left) fuel ++ i :: etInorderFrom s ((s.get i).right) fuel

def etInorderKeys (s : ETState) : List Int :=
  (etInorderFrom s s.root (s.nodes.length + 1)).map (fun i => (s.get i).key)

/-- Public operations of the EnergyTree interface. -/
inductive EOp where
  | ins (i : Nat)
  | rem (i : Nat)
deriving DecidableEq, Repr

def etStep (s : ETState) : EOp → Except String ETState
  | EOp.ins i => etInsert s i
  | EOp.rem i => etRemove s i

def etRun (s : ETState) : List EOp → Except String ETState
  | [] => Except.ok s
  | op :: rest => do
    let s ← etStep s op
    etRun s rest

def etInit (keys : List Int) : ETState :=
  { nodes := keys.map (fun k => { key := k }), root := none, buffer := [] }

/-!
Functional views.  The RBTree search routines that never touch parent
pointers or colors (the descent loop of insert_leaf_base, find,
upper_bound) read only the left and right links and the keys, so they have
a direct structural embedding on inductive trees; this is used for the
claims that quantify over all trees. -/

/-- A binary search tree shape with integer keys (the left, right and key
fields of a node; links to absent children are the leaf). -/
inductive BT where
  | lf
  | nd (l : BT) (k : Int) (r : BT)
deriving DecidableEq, Repr

/-- In-order key sequence. -/
def BT.inorder : BT → List Int
  | BT.lf => []
  | BT.nd l k r => BT.inorder l ++ k :: BT.inorder r

/-- Strict sortedness with open bounds: every key lies strictly between lo
and hi, left subtrees below the node key, right subtrees above (the state
of an RBTree without duplicates). -/
def okBound (lo : Option Int) (k : Int) (hi : Option Int) : Bool :=
  (match lo with | none => true | some a => a < k) &&
  (match hi with | none => true | some b => k < b)

def BT.sortedB : Option Int → BT → Option Int → Bool
  | _, BT.lf, _ => true
  | lo, BT.nd l k r, hi => okBound lo k hi && BT.sortedB lo l (some k) && BT.sortedB (some k) r hi

/-- Membership of a key. -/
def BT.hasKey : BT → Int → Bool
  | BT.lf, _ => false
  | BT.nd l k r, x => x = k || BT.hasKey l x || BT.hasKey r x

/-- The descent loop of RBTree::insert_leaf_base: go right when the
current key is smaller than the new one, left otherwise (equal keys also
go left); the result is the key of the landing parent, none for an empty
tree. -/
def BT.landing : BT → Int → Option Int
  | BT.lf, _ => none
  | BT.nd l k r, x =>
    if k < x then
      match r with
      | BT.lf => some k
      | BT.nd _ _ _ => BT.landing r x
    else
      match l with
      | BT.lf => some k
      | BT.nd _ _ _ => BT.landing l x

/-- With MULTIPLE disabled, insert_leaf_base returns without linking
exactly when the landing parent compares equal to the new key. -/
def BT.insertIsNoop (t : BT) (x : Int) : Bool :=
  match BT.landing t x with
  | none => false
  | some k => !(k < x) && !(x < k)

/-- Search for the node with key equal to x and report whether its left
child is absent (none when x is not in the tree). -/
def BT.eqLeftEmpty : BT → Int → Option Bool
  | BT.lf, _ => none
  | BT.nd l k r, x =>
    if k < x then BT.eqLeftEmpty r x
    else if x < k then BT.eqLeftEmpty l x
    else some (l = BT.lf)

/-- The loop of RBTree::upper_bound: remember the last node whose key the
query was below; on an equality hit step to the right child and, when it
exists, return it at once. -/
def BT.ubAux : BT → Int → Option Int → Option Int
  | BT.lf, _, bound => bound
  | BT.nd l k r, q, bound =>
    if q < k then BT.ubAux l q (some k)
    else if k < q then BT.ubAux r q bound
    else
      match r with
      | BT.lf => bound
      | BT.nd _ rk _ => some rk

/-- RBTree::upper_bound on the functional view (the returned node is
identified by its key; keys are unique under sortedB). -/
def BT.upperBound (t : BT) (q : Int) : Option Int :=
  BT.ubAux t q none

/-- The subtree hanging to the right of the node whose key equals the
query, when the search descent meets such a node. -/
def BT.eqRight : BT → Int → Option BT
  | BT.lf, _ => none
  | BT.nd l k r, q =>
    if q < k then BT.eqRight l q
    else if k < q then BT.eqRight r q
    else some r

/-- The smallest in-order key strictly above q (the specification of
upper_bound). -/
def BT.leastGreater (t : BT) (q : Int) : Option Int :=
  (BT.inorder t).find? (fun k => q < k)

/-!
Interval tree (src/src/intervaltree.hpp).  The query machinery
(find_next_overlapping and the QueryResult iterator of intervaltree.cpp)
is not part of the sources under src/, which only hold its declaration;
the walk is therefore modelled from the specification, see `itQuery`. -/

/-- An interval-tree subtree: interval lower and upper endpoint plus the
_it_max_upper augmentation field of ITreeNodeBase. -/
inductive IT where
  | lf
  | nd (l : IT) (lo hi mu : Int) (r : IT)
deriving DecidableEq, Repr

/-- Half-open overlap: interval a overlaps q iff lower(a) < upper(q) and
lower(q) < upper(a). -/
def ovl (alo ahi qlo qhi : Int) : Bool :=
  alo < qhi && qlo < ahi

/-- max_upper of an optional subtree, an absent child being ignored (the
default d is the upper endpoint of the parent). -/
def IT.muOr (d : Int) : IT → Int
  | IT.lf => d
  | IT.nd _ _ _ m _ => m

/-- Correctness of the max_upper augmentation:
max_upper(n) = max of upper(n) and the children maxima. -/
def IT.muOk : IT → Bool
  | IT.lf => true
  | IT.nd l _ hi m r =>
    m = max hi (max (IT.muOr hi l) (IT.muOr hi r)) && IT.muOk l && IT.muOk r

/-- Ordering by lower endpoint (ties arbitrary): left subtree lower
endpoints at most the node lower endpoint, right ones at least it. -/
def IT.inorder : IT → List (Int × Int)
  | IT.lf => []
  | IT.nd l lo hi _ r => IT.inorder l ++ (lo, hi) :: IT.inorder r

def IT.sortedLo : IT → Bool
  | IT.lf => true
  | IT.nd l lo _ _ r =>
    (IT.inorder l).all (fun p => p.1 ≤ lo) && (IT.inorder r).all (fun p => lo ≤ p.1) &&
    IT.sortedLo l && IT.sortedLo r

/-- Modelled from the spec: the overlap-query walk of the interval tree
(section 4.3; the implementation, find_next_overlapping of
intervaltree.cpp, is not among the sources).  Descend into the left child
only when its max_upper exceeds the query lower endpoint, yield the
current interval when it overlaps, descend into the right child only when
the current lower endpoint is below the query upper endpoint. -/
def itQuery : IT → Int → Int → List (Int × Int)
  | IT.lf, _, _ => []
  | IT.nd l lo hi _ r, qlo, qhi =>
    (match l with
     | IT.lf => []
     | IT.nd _ _ _ lm _ => if qlo < lm then itQuery l qlo qhi else []) ++
    (if ovl lo hi qlo qhi then [(lo, hi)] else []) ++
    (if lo < qhi then itQuery r qlo qhi else [])

/-! Store lemmas. -/

theorem length_modL {α : Type} (l : List α) (i : Nat) (f : α → α) :
    (modL l i f).length = l.length := by
  induction l generalizing i with
  | nil => rfl
  | cons x xs ih =>
    cases i with
    | zero => rfl
    | succ n => simpa [modL] using ih n

theorem getL_modL {α : Type} [Inhabited α] (l : List α) (i j : Nat) (f : α → α) :
    getL (modL l i f) j = if i = j ∧ j < l.length then f (getL l j) else getL l j := by
  induction l generalizing i j with
  | nil => simp [modL, getL]
  | cons x xs ih =>
    cases i with
    | zero =>
      cases j with
      | zero => simp [modL, getL]
      | succ jj => simp [modL, getL]
    | succ ii =>
      cases j with
      | zero => simp [modL, getL]
      | succ jj =>
        simpa [modL, getL, Nat.succ_lt_succ_iff, Nat.succ_inj] using ih ii jj

theorem get_mod (s : RBState) (i j : Nat) (f : RBNode → RBNode) :
    (s.mod i f).get j = if i = j ∧ j < s.nodes.length then f (s.get j) else s.get j :=
  getL_modL s.nodes i j f

theorem len_mod (s : RBState) (i : Nat) (f : RBNode → RBNode) :
    (s.mod i f).nodes.length = s.nodes.length :=
  length_modL s.nodes i f

theorem color_mod (s : RBState) (i j : Nat) (f : RBNode → RBNode)
    (h : ∀ n, (f n).color = n.color) :
    ((s.mod i f).get j).color = (s.get j).color := by
  rw [get_mod]
  split <;> simp [h]

theorem color_setRoot (s : RBState) (v : Option Nat) (j : Nat) :
    ((setRoot s v).get j).color = (s.get j).color := rfl

theorem len_setRoot (s : RBState) (v : Option Nat) :
    (setRoot s v).nodes.length = s.nodes.length := rfl

/-- Both branches of an if equal the same value, so the if does too
(used to dispose of branchy store updates without deciding conditions). -/
theorem ite_both {α : Type} {c : Prop} [Decidable c] {a b r : α} (h1 : a = r) (h2 : b = r) :
    (if c then a else b) = r := by
  split <;> assumption

theorem color_swapNeighbors (s : RBState) (p c j : Nat) :
    ((swapNeighbors s p c).get j).color = (s.get j).color := by
  unfold swapNeighbors
  repeat'
    first
    | split
    | (refine ite_both ?_ ?_)
    | (simp [color_mod, color_setRoot, apply_ite (fun st : RBState => (st.get j).color)])

theorem len_swapNeighbors (s : RBState) (p c : Nat) :
    (swapNeighbors s p c).nodes.length = s.nodes.length := by
  unfold swapNeighbors
  repeat'
    first
    | split
    | (refine ite_both ?_ ?_)
    | (simp [len_mod, len_setRoot, apply_ite (fun st : RBState => st.nodes.length)])

set_option maxHeartbeats 3000000 in
theorem color_swapUnrelatedNodes (s : RBState) (i1 i2 j : Nat) :
    ((swapUnrelatedNodes s i1 i2).get j).color = (s.get j).color := by
  unfold swapUnrelatedNodes
  repeat'
    first
    | split
    | (refine ite_both ?_ ?_)
    | (simp [color_mod, color_setRoot, apply_ite (fun st : RBState => (st.get j).color)])

set_option maxHeartbeats 3000000 in
theorem len_swapUnrelatedNodes (s : RBState) (i1 i2 : Nat) :
    (swapUnrelatedNodes s i1 i2).nodes.length = s.nodes.length := by
  unfold swapUnrelatedNodes
  repeat'
    first
    | split
    | (refine ite_both ?_ ?_)
    | (simp [len_mod, len_setRoot, apply_ite (fun st : RBState => st.nodes.length)])

theorem color_eqListSwapIfNecessary (s : RBState) (i1 i2 j : Nat) :
    ((eqListSwapIfNecessary s i1 i2).get j).color = (s.get j).color := by
  unfold eqListSwapIfNecessary
  repeat'
    first
    | split
    | (refine ite_both ?_ ?_)
    | (simp [color_mod, color_setRoot, apply_ite (fun st : RBState => (st.get j).color)])

theorem len_eqListSwapIfNecessary (s : RBState) (i1 i2 : Nat) :
    (eqListSwapIfNecessary s i1 i2).nodes.length = s.nodes.length := by
  unfold eqListSwapIfNecessary
  repeat'
    first
    | split
    | (refine ite_both ?_ ?_)
    | (simp [len_mod, len_setRoot, apply_ite (fun st : RBState => st.nodes.length)])

deriving instance DecidableEq for Except

/-! Claim-specific runs. -/

/-- The run deciding C2: insert keys 2, 1, 3 into an empty energy tree
(node ids 0, 1, 2), then remove the key-2 node. -/
def c2run : Except String ETState :=
  etRun (etInit [2, 1, 3]) [EOp.ins 0, EOp.ins 1, EOp.ins 2, EOp.rem 0]

/-- C2: the claim fails on the code.  After the public operation sequence
insert 2, insert 1, insert 3, remove 2 on an empty energy tree, the run
succeeds but leaves the root (the key-1 node, id 1) with its left link
pointing to itself and size 2, so size(n) = 1 + size(left) + size(right)
does not hold at the root: remove moved the left child up without
detaching it from itself (child.left is assigned node.left, which is the
child). -/
theorem C2_size_invariant_violated :
    c2run.map (fun s => (s.root, (s.get 1).left, (s.get 1).size, etNodeSizeOk s 1)) =
      Except.ok (some 1, some 1, 2, false) := by decide

/-- The run deciding C3: insert keys 1 to 6 ascending (ids 0 to 5), then
remove the key-1 leaf, which triggers rebuild_below at the root, whose
subtree then has size 5. -/
def c3run : Except String ETState :=
  etRun (etInit [1, 2, 3, 4, 5, 6])
    [EOp.ins 0, EOp.ins 1, EOp.ins 2, EOp.ins 3, EOp.ins 4, EOp.ins 5, EOp.rem 0]

/-- C3: the claim fails on the code.  The six inserts leave a well-formed
tree of size 6 with in-order 1..6; removing the key-1 leaf starts a
rebuild at the root (subtree size 5, not of the form 2 ^ L - 1), and the
level-linking phase reads the size field through an empty scratch-buffer
slot: a null-pointer dereference instead of a complete binary tree. -/
theorem C3_rebuild_crashes_on_size_five :
    (etRun (etInit [1, 2, 3, 4, 5, 6])
        [EOp.ins 0, EOp.ins 1, EOp.ins 2, EOp.ins 3, EOp.ins 4, EOp.ins 5]).map
      (fun s => (etInorderKeys s, s.root.map (fun r => (s.get r).size))) =
      Except.ok ([1, 2, 3, 4, 5, 6], some 6) ∧
    c3run = Except.error "null pointer dereference in rebuild" := by decide

/-- The run deciding C9: insert keys 2, 1, 3, then remove all three. -/
def c9run : Except String ETState :=
  etRun (etInit [2, 1, 3]) [EOp.ins 0, EOp.ins 1, EOp.ins 2, EOp.rem 0, EOp.rem 1, EOp.rem 2]

/-- C9: the round-trip law fails for the energy tree.  Inserting the set
of keys 2, 1, 3 and then removing all of them does not leave an empty
tree: the first remove creates a self-linked node and the second remove
runs the leftmost descent of rebuild_below forever on it. -/
theorem C9_round_trip_diverges :
    c9run = Except.error "non-terminating leftmost descent" := by decide

/-- The run deciding C7: three nodes with the equal key 5, inserted in id
order 0, 1, 2 by the left-biased insert with MULTIPLE enabled. -/
def c7run : RBState :=
  rbRun (rbInit [5, 5, 5] true) [ROp.ins 0, ROp.ins 1, ROp.ins 2]

/-- C7 counterexample: forward in-order iteration yields the three equal
nodes in the order 2, 1, 0, which is not the insertion order 0, 1, 2 (the
claim asserts insertion order). -/
theorem C7_counterexample :
    rbInorderIds c7run = [2, 1, 0] ∧ [2, 1, 0] ≠ ([0, 1, 2] : List Nat) := by decide

/-- C7 amended: find(5) returns the head of the three-element equality
chain, and that head is the first-inserted node 0; forward in-order
iteration yields the three nodes in reverse insertion order; each
left-biased insert at an equal position spliced the new node into the
chain directly after its equal parent, so the chain in next-direction is
0, 1, 2 with reciprocal links. -/
theorem C7_amended_thm :
    rbFind c7run 5 = some 0 ∧
    rbInorderIds c7run = [2, 1, 0] ∧
    (c7run.get 0).prev = none ∧ (c7run.get 0).next = some 1 ∧
    (c7run.get 1).prev = some 0 ∧ (c7run.get 1).next = some 2 ∧
    (c7run.get 2).prev = some 1 ∧ (c7run.get 2).next = none := by decide

/-- The state deciding C5: a tree with MULTIPLE disabled holding key 5 at
the root (id 0) and key 3 as its left child (id 1); node 2 carries the
duplicate key 5. -/
def c5pre : RBState :=
  rbRun (rbInit [5, 3, 5] false) [ROp.ins 0, ROp.ins 1]

/-- C5 counterexample: with duplicates disabled, inserting node 2 whose
key 5 equals the already-linked root is not a no-op: the descent walks
left past the equal root, lands on the key-3 node, links node 2 there,
and the fix-up even rotates it to the root.  The linked node set and the
structure change. -/
theorem C5_counterexample :
    (c5pre.get 0).key = 5 ∧ (c5pre.get 2).key = 5 ∧ rbInorderIds c5pre = [1, 0] ∧
    rbInorderIds (rbInsert c5pre 2) = [1, 2, 0] ∧ (rbInsert c5pre 2).root = some 2 := by decide

/-- The run deciding C8 and C10: keys 10, 5, 20 inserted (ids 0, 1, 2),
then id 3 with key 15. -/
def c8run : RBState :=
  rbRun (rbInit [10, 5, 20, 15] true) [ROp.ins 0, ROp.ins 1, ROp.ins 2, ROp.insH 3 1]

/-- C8 counterexample: inserting key 15 with the key-5 node as hint into
the tree holding 10, 5, 20 links 15 below 5; the in-order key sequence
becomes 5, 15, 10, 20, which is not non-decreasing, refuting the claimed
postcondition. -/
theorem C8_counterexample :
    rbInorderKeys c8run = [5, 15, 10, 20] ∧
    ¬ List.Sorted (· ≤ ·) (rbInorderKeys c8run) := by decide

/-- The state deciding C10: keys 10, 5, 20, 15 (ids 0 to 3) inserted into
an empty tree; the tree is 10 at the root, 5 and 20 below, 15 left of
20. -/
def c10run : RBState :=
  rbRun (rbInit [10, 5, 20, 15] false) [ROp.ins 0, ROp.ins 1, ROp.ins 2, ROp.ins 3]

/-- C10 counterexample: upper_bound(10) hits the equal root, steps to its
right child (the key-20 node, id 2) and returns it at once, although the
key-15 node (id 3) is linked and 15 is the smallest key above 10 in the
in-order sequence 5, 10, 15, 20. -/
theorem C10_counterexample :
    rbUpperBound c10run 10 = some 2 ∧ (c10run.get 2).key = 20 ∧
    (c10run.get 3).key = 15 ∧ rbInorderKeys c10run = [5, 10, 15, 20] := by decide

/-! Claim C6: swap_nodes and the swap_colors flag. -/

/-- A two-node tree for C6: black key-1 root (id 0) with red key-2 right
child (id 1). -/
def c6state : RBState :=
  { nodes := [{ key := 1, color := Color.black, right := some 1 },
              { key := 2, color := Color.red, parent := some 0 }],
    root := some 0, multiple := true }

/-- C6 counterexample: the claim says a swap_nodes call with
swap_colors = false leaves both colors on their original nodes; on the
code, the call exchanges the stored colors (the source guards the
exchange by `if (!swap_colors)`). -/
theorem C6_counterexample :
    (c6state.get 0).color = Color.black ∧ (c6state.get 1).color = Color.red ∧
    ((swapNodes c6state 0 1 false).get 0).color = Color.red ∧
    ((swapNodes c6state 0 1 false).get 1).color = Color.black := by decide

/-- A swap_nodes call with swap_colors = true is the structural swap
followed by the equality-chain fix, with the color exchange skipped. -/
theorem swapNodes_true_eq (s : RBState) (n1 n2 : Nat) :
    swapNodes s n1 n2 true =
      eqListSwapIfNecessary
        (if (s.get n1).parent = some n2 then swapNeighbors s n2 n1
         else if (s.get n2).parent = some n1 then swapNeighbors s n1 n2
         else swapUnrelatedNodes s n1 n2) n1 n2 := rfl

/-- With swap_colors = true the color exchange is skipped, so swap_nodes
leaves every stored color in place. -/
theorem color_swapNodes_true (s : RBState) (n1 n2 j : Nat) :
    ((swapNodes s n1 n2 true).get j).color = (s.get j).color := by
  rw [swapNodes_true_eq, color_eqListSwapIfNecessary]
  simp only [apply_ite (fun st : RBState => (st.get j).color)]
  refine ite_both ?_ (ite_both ?_ ?_)
  · exact color_swapNeighbors s n2 n1 j
  · exact color_swapNeighbors s n1 n2 j
  · exact color_swapUnrelatedNodes s n1 n2 j

theorem len_swapNodes_true (s : RBState) (n1 n2 : Nat) :
    (swapNodes s n1 n2 true).nodes.length = s.nodes.length := by
  rw [swapNodes_true_eq, len_eqListSwapIfNecessary]
  simp only [apply_ite (fun st : RBState => st.nodes.length)]
  refine ite_both ?_ (ite_both ?_ ?_)
  · exact len_swapNeighbors s n2 n1
  · exact len_swapNeighbors s n1 n2
  · exact len_swapUnrelatedNodes s n1 n2

/-- A swap_nodes call with swap_colors = false is the swap_colors = true
call followed by the exchange of the two stored colors. -/
theorem swapNodes_false_eq (s : RBState) (n1 n2 : Nat) :
    swapNodes s n1 n2 false =
      ((swapNodes s n1 n2 true).mod n1
          (fun n => { n with color := ((swapNodes s n1 n2 true).get n2).color })).mod n2
        (fun n => { n with color := ((swapNodes s n1 n2 true).get n1).color }) := rfl

/-- C6 amended: for every pair of distinct linked nodes, swap_nodes
exchanges the two stored colors exactly when swap_colors is FALSE (the
color then stays attached to the tree position rather than the node),
and leaves every stored color unchanged when swap_colors is true.  The
delete path passes false for the successor swap, so the successor
position keeps its color. -/
theorem C6_amended_thm (s : RBState) (n1 n2 : Nat) (h1 : n1 < s.nodes.length)
    (h2 : n2 < s.nodes.length) (hne : n1 ≠ n2) :
    (((swapNodes s n1 n2 false).get n1).color = (s.get n2).color ∧
     ((swapNodes s n1 n2 false).get n2).color = (s.get n1).color) ∧
    ((swapNodes s n1 n2 true).get n1).color = (s.get n1).color ∧
    ((swapNodes s n1 n2 true).get n2).color = (s.get n2).color := by
  have hl : (swapNodes s n1 n2 true).nodes.length = s.nodes.length :=
    len_swapNodes_true s n1 n2
  refine ⟨⟨?_, ?_⟩, color_swapNodes_true s n1 n2 n1, color_swapNodes_true s n1 n2 n2⟩
  · rw [swapNodes_false_eq, get_mod, if_neg (fun hc => hne hc.1.symm), get_mod,
      if_pos ⟨rfl, by rw [hl]; exact h1⟩]
    exact color_swapNodes_true s n1 n2 n2
  · rw [swapNodes_false_eq, get_mod, if_pos ⟨rfl, by rw [len_mod, hl]; exact h2⟩]
    exact color_swapNodes_true s n1 n2 n1

/-- Witness for C6: the amended theorem evaluated on the concrete
two-node tree. -/
theorem C6_amended_witness :
    (0 < c6state.nodes.length ∧ 1 < c6state.nodes.length ∧ (0 : Nat) ≠ 1) ∧
    ((((swapNodes c6state 0 1 false).get 0).color = (c6state.get 1).color ∧
      ((swapNodes c6state 0 1 false).get 1).color = (c6state.get 0).color) ∧
     ((swapNodes c6state 0 1 true).get 0).color = (c6state.get 0).color ∧
     ((swapNodes c6state 0 1 true).get 1).color = (c6state.get 1).color) :=
  ⟨⟨by decide, by decide, by decide⟩,
   C6_amended_thm c6state 0 1 (by decide) (by decide) (by decide)⟩

/-! Claims C5 and C10: ordering lemmas on the functional view. -/

/-- Every key of a subtree with upper bound b lies below b. -/
theorem sortedB_hasKey_lt : ∀ (t : BT) (lo : Option Int) (b x : Int),
    BT.sortedB lo t (some b) = true → BT.hasKey t x = true → x < b
  | BT.lf, _, _, _, _, hk => by simp [BT.hasKey] at hk
  | BT.nd l k r, lo, b, x, hs, hk => by
    simp only [BT.sortedB, Bool.and_eq_true] at hs
    obtain ⟨⟨hok, hl⟩, hr⟩ := hs
    have hkb : k < b := by
      simp only [okBound, Bool.and_eq_true] at hok
      simpa using hok.2
    simp only [BT.hasKey, Bool.or_eq_true] at hk
    rcases hk with (hk | hk) | hk
    · have hx : x = k := by simpa using hk
      exact hx ▸ hkb
    · exact lt_trans (sortedB_hasKey_lt l lo k x hl hk) hkb
    · exact sortedB_hasKey_lt r (some k) b x hr hk

/-- Every key of a subtree with lower bound a lies above a. -/
theorem sortedB_hasKey_gt : ∀ (t : BT) (a : Int) (hi : Option Int) (x : Int),
    BT.sortedB (some a) t hi = true → BT.hasKey t x = true → a < x
  | BT.lf, _, _, _, _, hk => by simp [BT.hasKey] at hk
  | BT.nd l k r, a, hi, x, hs, hk => by
    simp only [BT.sortedB, Bool.and_eq_true] at hs
    obtain ⟨⟨hok, hl⟩, hr⟩ := hs
    have hak : a < k := by
      simp only [okBound, Bool.and_eq_true] at hok
      simpa using hok.1
    simp only [BT.hasKey, Bool.or_eq_true] at hk
    rcases hk with (hk | hk) | hk
    · have hx : x = k := by simpa using hk
      exact hx ▸ hak
    · exact sortedB_hasKey_gt l a (some k) x hl hk
    · exact lt_trans hak (sortedB_hasKey_gt r k hi x hr hk)

/-- The descent through a non-empty subtree all of whose keys are below x
lands on a key below x (it walks the right spine). -/
theorem landing_lt : ∀ (t : BT) (x : Int) (lo : Option Int) (b : Int),
    BT.sortedB lo t (some b) = true → b ≤ x → t ≠ BT.lf →
    ∃ m, BT.landing t x = some m ∧ m < x
  | BT.lf, _, _, _, _, _, hne => absurd rfl hne
  | BT.nd l k r, x, lo, b, hs, hbx, _ => by
    simp only [BT.sortedB, Bool.and_eq_true] at hs
    obtain ⟨⟨hok, hl⟩, hr⟩ := hs
    have hkb : k < b := by
      simp only [okBound, Bool.and_eq_true] at hok
      simpa using hok.2
    have hkx : k < x := lt_of_lt_of_le hkb hbx
    cases r with
    | lf => exact ⟨k, by simp [BT.landing, hkx], hkx⟩
    | nd rl rk rr =>
      obtain ⟨m, hm, hmx⟩ :=
        landing_lt (BT.nd rl rk rr) x (some k) b hr hbx (by simp)
      exact ⟨m, by simp [BT.landing, hkx]; simpa [BT.landing] using hm, hmx⟩

/-- C5 amended, main induction: in a duplicate-free sorted tree holding
the key x, the insert descent is a no-op exactly when the node carrying x
has no left child (the descent passes an equal node to the left and then
runs down the right spine of its left subtree, so merely having an equal
key in the tree does not make the insert a no-op). -/
theorem C5_aux : ∀ (t : BT) (x : Int) (lo hi : Option Int),
    BT.sortedB lo t hi = true → BT.hasKey t x = true →
    (BT.insertIsNoop t x = true ↔ BT.eqLeftEmpty t x = some true)
  | BT.lf, x, _, _, _, hk => by simp [BT.hasKey] at hk
  | BT.nd l k r, x, lo, hi, hs, hk => by
    have hs' := hs
    simp only [BT.sortedB, Bool.and_eq_true] at hs'
    obtain ⟨⟨hok, hl⟩, hr⟩ := hs'
    simp only [BT.hasKey, Bool.or_eq_true] at hk
    rcases lt_trichotomy x k with hxk | hxk | hxk
    · have hkl : BT.hasKey l x = true := by
        rcases hk with (hk | hk) | hk
        · exact absurd (by simpa using hk) (ne_of_lt hxk)
        · exact hk
        · exact absurd (sortedB_hasKey_gt r k hi x hr hk) (not_lt_of_gt hxk)
      have hlne : l ≠ BT.lf := by
        intro hc
        rw [hc] at hkl
        simp [BT.hasKey] at hkl
      have hnkx : ¬ k < x := not_lt_of_gt hxk
      cases l with
      | lf => exact absurd rfl hlne
      | nd ll lk lr =>
        have el : BT.insertIsNoop (BT.nd (BT.nd ll lk lr) k r) x =
            BT.insertIsNoop (BT.nd ll lk lr) x := by
          simp [BT.insertIsNoop, BT.landing, hnkx]
        have er : BT.eqLeftEmpty (BT.nd (BT.nd ll lk lr) k r) x =
            BT.eqLeftEmpty (BT.nd ll lk lr) x := by
          simp [BT.eqLeftEmpty, hnkx, hxk]
        rw [el, er]
        exact C5_aux (BT.nd ll lk lr) x lo (some k) hl hkl
    · have hnkx : ¬ k < x := by rw [hxk]; exact lt_irrefl k
      have hnxk : ¬ x < k := by rw [hxk]; exact lt_irrefl k
      cases l with
      | lf =>
        constructor
        · intro _
          simp [BT.eqLeftEmpty, hnkx, hnxk]
        · intro _
          simp [BT.insertIsNoop, BT.landing, hnkx, hnxk]
      | nd ll lk lr =>
        obtain ⟨m, hm, hmx⟩ :=
          landing_lt (BT.nd ll lk lr) x lo k hl (le_of_eq hxk.symm) (by simp)
        have hland : BT.landing (BT.nd (BT.nd ll lk lr) k r) x = some m := by
          simp only [BT.landing, if_neg hnkx]
          exact hm
        have hnoop : BT.insertIsNoop (BT.nd (BT.nd ll lk lr) k r) x = false := by
          simp [BT.insertIsNoop, hland, hmx]
        have hcv : BT.eqLeftEmpty (BT.nd (BT.nd ll lk lr) k r) x = some false := by
          simp [BT.eqLeftEmpty, hnkx, hnxk]
        simp [hnoop, hcv]
    · have hkr : BT.hasKey r x = true := by
        rcases hk with (hk | hk) | hk
        · exact absurd (by simpa using hk) (ne_of_gt hxk)
        · exact absurd (sortedB_hasKey_lt l lo k x hl hk) (not_lt_of_gt hxk)
        · exact hk
      have hrne : r ≠ BT.lf := by
        intro hc
        rw [hc] at hkr
        simp [BT.hasKey] at hkr
      cases r with
      | lf => exact absurd rfl hrne
      | nd rl rk rr =>
        have el : BT.insertIsNoop (BT.nd l k (BT.nd rl rk rr)) x =
            BT.insertIsNoop (BT.nd rl rk rr) x := by
          simp [BT.insertIsNoop, BT.landing, hxk]
        have er : BT.eqLeftEmpty (BT.nd l k (BT.nd rl rk rr)) x =
            BT.eqLeftEmpty (BT.nd rl rk rr) x := by
          simp [BT.eqLeftEmpty, hxk, not_lt_of_gt hxk]
        rw [el, er]
        exact C5_aux (BT.nd rl rk rr) x (some k) hi hr hkr

/-- C5 amended: in a duplicate-free sorted tree that already holds the
key x, inserting another node with key x (MULTIPLE disabled) returns
without linking exactly when the equal node has no left child; otherwise
the descent lands on an unequal parent and the new node is linked. -/
theorem C5_amended_thm (t : BT) (x : Int) (hs : BT.sortedB none t none = true)
    (hk : BT.hasKey t x = true) :
    BT.insertIsNoop t x = true ↔ BT.eqLeftEmpty t x = some true :=
  C5_aux t x none none hs hk

/-- The tree of the C5 counterexample, as a functional view: key 5 at the
root with key 3 as its left child. -/
def c5tree : BT := BT.nd (BT.nd BT.lf 3 BT.lf) 5 BT.lf

/-- Witness for C5: the amended theorem evaluated on the counterexample
tree (both sides of the equivalence are false there: the insert is not a
no-op and the equal node has a left child). -/
theorem C5_amended_witness :
    (BT.sortedB none c5tree none = true ∧ BT.hasKey c5tree 5 = true) ∧
    (BT.insertIsNoop c5tree 5 = true ↔ BT.eqLeftEmpty c5tree 5 = some true) :=
  ⟨⟨by decide, by decide⟩, C5_amended_thm c5tree 5 (by decide) (by decide)⟩

/-- Every in-order key of a subtree with upper bound b lies below b. -/
theorem inorder_lt_of_sorted : ∀ (t : BT) (lo : Option Int) (b : Int),
    BT.sortedB lo t (some b) = true → ∀ x ∈ BT.inorder t, x < b
  | BT.lf, _, _, _, x, hx => by simp [BT.inorder] at hx
  | BT.nd l k r, lo, b, hs, x, hx => by
    simp only [BT.sortedB, Bool.and_eq_true] at hs
    obtain ⟨⟨hok, hl⟩, hr⟩ := hs
    have hkb : k < b := by
      simp only [okBound, Bool.and_eq_true] at hok
      simpa using hok.2
    simp only [BT.inorder, List.mem_append, List.mem_cons] at hx
    rcases hx with hx | hx | hx
    · exact lt_trans (inorder_lt_of_sorted l lo k hl x hx) hkb
    · exact hx ▸ hkb
    · exact inorder_lt_of_sorted r (some k) b hr x hx

/-- Every in-order key of a subtree with lower bound a lies above a. -/
theorem inorder_gt_of_sorted : ∀ (t : BT) (a : Int) (hi : Option Int),
    BT.sortedB (some a) t hi = true → ∀ x ∈ BT.inorder t, a < x
  | BT.lf, _, _, _, x, hx => by simp [BT.inorder] at hx
  | BT.nd l k r, a, hi, hs, x, hx => by
    simp only [BT.sortedB, Bool.and_eq_true] at hs
    obtain ⟨⟨hok, hl⟩, hr⟩ := hs
    have hak : a < k := by
      simp only [okBound, Bool.and_eq_true] at hok
      simpa using hok.1
    simp only [BT.inorder, List.mem_append, List.mem_cons] at hx
    rcases hx with hx | hx | hx
    · exact inorder_gt_of_sorted l a (some k) hl x hx
    · exact hx ▸ hak
    · exact lt_trans hak (inorder_gt_of_sorted r k hi hr x hx)

/-- The loop of upper_bound against its in-order specification: on a
sorted subtree the result is the first in-order key above the query,
falling back to the remembered bound, except that an equality hit with a
non-empty right subtree returns the root key of that right subtree. -/
theorem ubAux_spec : ∀ (t : BT) (q : Int) (b : Option Int) (lo hi : Option Int),
    BT.sortedB lo t hi = true →
    BT.ubAux t q b =
      (match BT.eqRight t q with
       | some (BT.nd _ rk _) => some rk
       | _ => Option.or ((BT.inorder t).find? (fun k => decide (q < k))) b)
  | BT.lf, q, b, lo, hi, _ => by simp [BT.ubAux, BT.eqRight, BT.inorder, Option.or]
  | BT.nd l k r, q, b, lo, hi, hs => by
    simp only [BT.sortedB, Bool.and_eq_true] at hs
    obtain ⟨⟨hok, hl⟩, hr⟩ := hs
    rcases lt_trichotomy q k with hqk | hqk | hqk
    · have hnkq : ¬ k < q := not_lt_of_gt hqk
      have e1 : BT.ubAux (BT.nd l k r) q b = BT.ubAux l q (some k) := by
        simp [BT.ubAux, hqk]
      have e2 : BT.eqRight (BT.nd l k r) q = BT.eqRight l q := by
        simp [BT.eqRight, hqk]
      rw [e1, e2, ubAux_spec l q (some k) lo (some k) hl]
      have hfind : ((BT.inorder (BT.nd l k r)).find? (fun x => decide (q < x))) =
          Option.or ((BT.inorder l).find? (fun x => decide (q < x))) (some k) := by
        simp only [BT.inorder, List.find?_append]
        have : (k :: BT.inorder r).find? (fun x => decide (q < x)) = some k := by
          simp [List.find?_cons, hqk]
        rw [this]
      cases hE : BT.eqRight l q with
      | none =>
        simp only [hfind]
        cases hF : (BT.inorder l).find? (fun x => decide (q < x)) <;> simp [Option.or]
      | some tr =>
        cases tr with
        | lf =>
          simp only [hfind]
          cases hF : (BT.inorder l).find? (fun x => decide (q < x)) <;> simp [Option.or]
        | nd a rk c => rfl
    · have hnqk : ¬ q < k := by rw [hqk]; exact lt_irrefl k
      have hnkq : ¬ k < q := by rw [hqk]; exact lt_irrefl k
      have e2 : BT.eqRight (BT.nd l k r) q = some r := by
        simp [BT.eqRight, hnqk, hnkq]
      rw [e2]
      cases r with
      | lf =>
        have e1 : BT.ubAux (BT.nd l k BT.lf) q b = b := by
          simp [BT.ubAux, hnqk, hnkq]
        rw [e1]
        have hfl : ((BT.inorder l).find? (fun x => decide (q < x))) = none := by
          rw [List.find?_eq_none]
          intro x hx
          simp only [decide_eq_true_eq]
          exact not_lt_of_gt (hqk ▸ inorder_lt_of_sorted l lo k hl x hx)
        simp [BT.inorder, List.find?_append, hfl, List.find?_cons, hnqk, Option.or]
      | nd rl rk rr =>
        simp [BT.ubAux, hnqk, hnkq]
    · have hnqk : ¬ q < k := not_lt_of_gt hqk
      have e1 : BT.ubAux (BT.nd l k r) q b = BT.ubAux r q b := by
        simp [BT.ubAux, hnqk, hqk]
      have e2 : BT.eqRight (BT.nd l k r) q = BT.eqRight r q := by
        simp [BT.eqRight, hnqk, hqk]
      rw [e1, e2, ubAux_spec r q b (some k) hi hr]
      have hfl : ((BT.inorder l).find? (fun x => decide (q < x))) = none := by
        rw [List.find?_eq_none]
        intro x hx
        simp only [decide_eq_true_eq]
        exact fun hc => absurd (lt_trans hc (inorder_lt_of_sorted l lo k hl x hx))
          (not_lt_of_gt hqk)
      have hfind : ((BT.inorder (BT.nd l k r)).find? (fun x => decide (q < x))) =
          (BT.inorder r).find? (fun x => decide (q < x)) := by
        simp [BT.inorder, List.find?_append, hfl, List.find?_cons, hnqk, Option.or]
      rw [hfind]

/-- C10 amended: on a duplicate-free sorted tree, upper_bound returns the
first in-order key strictly above the query (or none), except when the
descent meets the node whose key equals the query and that node has a
right child: then the right child itself is returned, even when its left
subtree holds a smaller key above the query. -/
theorem C10_amended_thm (t : BT) (q : Int) (hs : BT.sortedB none t none = true) :
    BT.upperBound t q =
      match BT.eqRight t q with
      | some (BT.nd _ rk _) => some rk
      | _ => BT.leastGreater t q := by
  rw [BT.upperBound, ubAux_spec t q none none none hs]
  cases hE : BT.eqRight t q with
  | none =>
    simp only [BT.leastGreater]
    cases hF : (BT.inorder t).find? (fun k => decide (q < k)) <;> simp [Option.or]
  | some tr =>
    cases tr with
    | lf =>
      simp only [BT.leastGreater]
      cases hF : (BT.inorder t).find? (fun k => decide (q < k)) <;> simp [Option.or]
    | nd a rk c => rfl

/-- The functional view of the C10 counterexample tree: keys 5, 10, 15,
20 with 15 below the right child 20. -/
def c10tree : BT := BT.nd (BT.nd BT.lf 5 BT.lf) 10 (BT.nd (BT.nd BT.lf 15 BT.lf) 20 BT.lf)

/-- Witness for C10: the amended theorem evaluated at query 10 on the
concrete tree (the equality hit returns the right child, key 20, although
the least key above 10 is 15). -/
theorem C10_amended_witness :
    BT.sortedB none c10tree none = true ∧
    (BT.upperBound c10tree 10 =
      match BT.eqRight c10tree 10 with
      | some (BT.nd _ rk _) => some rk
      | _ => BT.leastGreater c10tree 10) :=
  ⟨by decide, C10_amended_thm c10tree 10 (by decide)⟩

/-! Claim C4: the interval overlap query. -/

/-- Every upper endpoint in a subtree is bounded by the max_upper value
of the subtree (with default d for an absent subtree). -/
theorem hi_le_muOr : ∀ (t : IT) (d : Int), IT.muOk t = true →
    ∀ p ∈ IT.inorder t, p.2 ≤ IT.muOr d t
  | IT.lf, _, _, p, hp => by simp [IT.inorder] at hp
  | IT.nd l lo hi m r, d, hmu, p, hp => by
    simp only [IT.muOk, Bool.and_eq_true, decide_eq_true_eq] at hmu
    obtain ⟨⟨hm, hl⟩, hr⟩ := hmu
    simp only [IT.inorder, List.mem_append, List.mem_cons] at hp
    simp only [IT.muOr]
    rcases hp with hp | hp | hp
    · calc p.2 ≤ IT.muOr hi l := hi_le_muOr l hi hl p hp
        _ ≤ m := by rw [hm]; exact le_max_of_le_right (le_max_left _ _)
    · rw [hp, hm]
      exact le_max_left _ _
    · calc p.2 ≤ IT.muOr hi r := hi_le_muOr r hi hr p hp
        _ ≤ m := by rw [hm]; exact le_max_of_le_right (le_max_right _ _)

/-- C4: on a tree with a correct max_upper augmentation, ordered by lower
endpoints, the overlap-query walk emits exactly the overlapping stored
intervals, in in-order (each exactly once, as the filter of the in-order
sequence). -/
theorem C4_thm (t : IT) (qlo qhi : Int) (hmu : IT.muOk t = true)
    (hs : IT.sortedLo t = true) :
    itQuery t qlo qhi = (IT.inorder t).filter (fun p => ovl p.1 p.2 qlo qhi) := by
  induction t with
  | lf => simp [itQuery, IT.inorder]
  | nd l lo hi m r ihl ihr =>
    simp only [IT.muOk, Bool.and_eq_true, decide_eq_true_eq] at hmu
    obtain ⟨⟨hm, hmul⟩, hmur⟩ := hmu
    simp only [IT.sortedLo, Bool.and_eq_true] at hs
    obtain ⟨⟨⟨hall, harr⟩, hsl⟩, hsr⟩ := hs
    have hright : (if lo < qhi then itQuery r qlo qhi else []) =
        (IT.inorder r).filter (fun p => ovl p.1 p.2 qlo qhi) := by
      by_cases hq : lo < qhi
      · simpa [hq] using ihr hmur hsr
      · rw [if_neg hq]
        refine ((List.filter_eq_nil_iff).mpr ?_).symm
        intro p hp hov
        have hge : lo ≤ p.1 := by simpa using (List.all_eq_true.mp harr) p hp
        simp only [ovl, Bool.and_eq_true, decide_eq_true_eq] at hov
        exact hq (lt_of_le_of_lt hge hov.1)
    rw [IT.inorder, List.filter_append, List.filter_cons]
    cases l with
    | lf =>
      rw [show itQuery (IT.nd IT.lf lo hi m r) qlo qhi =
          ([] : List (Int × Int)) ++
            ((if ovl lo hi qlo qhi then [(lo, hi)] else []) ++
              (if lo < qhi then itQuery r qlo qhi else [])) from by simp [itQuery]]
      simp only [IT.inorder, List.filter_nil, List.nil_append]
      rw [hright]
      by_cases hov : ovl lo hi qlo qhi <;> simp [hov]
    | nd a b c lm e =>
      rw [show itQuery (IT.nd (IT.nd a b c lm e) lo hi m r) qlo qhi =
          (if qlo < lm then itQuery (IT.nd a b c lm e) qlo qhi else []) ++
            ((if ovl lo hi qlo qhi then [(lo, hi)] else []) ++
              (if lo < qhi then itQuery r qlo qhi else [])) from by simp [itQuery]]
      rw [hright]
      have hleft : (if qlo < lm then itQuery (IT.nd a b c lm e) qlo qhi else []) =
          (IT.inorder (IT.nd a b c lm e)).filter (fun p => ovl p.1 p.2 qlo qhi) := by
        by_cases hql : qlo < lm
        · simpa [hql] using ihl hmul hsl
        · rw [if_neg hql]
          refine ((List.filter_eq_nil_iff).mpr ?_).symm
          intro p hp hov
          have hle : p.2 ≤ lm := by
            simpa [IT.muOr] using hi_le_muOr (IT.nd a b c lm e) c hmul p hp
          simp only [ovl, Bool.and_eq_true, decide_eq_true_eq] at hov
          exact hql (lt_of_lt_of_le hov.2 hle)
      rw [hleft]
      by_cases hov : ovl lo hi qlo qhi <;> simp [hov]

/-- The concrete interval tree of specification scenario 5: intervals
[1,5), [3,7), [6,9), [10,12) with correct max_upper fields. -/
def c4tree : IT :=
  IT.nd (IT.nd IT.lf 1 5 5 IT.lf) 3 7 12
    (IT.nd (IT.nd IT.lf 6 9 9 IT.lf) 10 12 12 IT.lf)

/-- Witness for C4: the query [4,6) on the scenario tree emits exactly
the two overlapping intervals [1,5) and [3,7), in order. -/
theorem C4_witness :
    (IT.muOk c4tree = true ∧ IT.sortedLo c4tree = true) ∧
    itQuery c4tree 4 6 = (IT.inorder c4tree).filter (fun p => ovl p.1 p.2 4 6) ∧
    itQuery c4tree 4 6 = [(1, 5), (3, 7)] :=
  ⟨⟨by decide, by decide⟩, C4_thm c4tree 4 6 (by decide) (by decide), by decide⟩

/-! Claim C8: the hinted insert. -/

/-- The stop condition of the hinted-insert upward walk at node j: j has
no parent, or the new key is no longer smaller than the key of the parent
of j (this ends the upward walk). -/
def stopHere (s : RBState) (k : Int) (j : Nat) : Bool :=
  match (s.get j).parent with
  | none => true
  | some p => !(k < (s.get p).key)

/-- The chain of ancestors starting at node i (fuel-bounded). -/
def chainUp (s : RBState) (i : Nat) : Nat → List Nat
  | 0 => [i]
  | fuel+1 =>
    i :: (match (s.get i).parent with
          | none => []
          | some p => chainUp s p fuel)

/-- The upward walk of the hinted insert stops at the first ancestor of
the hint at which the new key is no longer smaller than the key of the
parent of that node (provided some ancestor in reach satisfies the
condition). -/
theorem walkUp_spec : ∀ (s : RBState) (k : Int) (i fuel : Nat),
    (chainUp s i fuel).any (stopHere s k) = true →
    some (walkUpAux s k i fuel) = (chainUp s i fuel).find? (stopHere s k)
  | s, k, i, 0, h => by
    simp only [chainUp, List.any_cons, List.any_nil, Bool.or_false] at h
    simp [walkUpAux, chainUp, List.find?, h]
  | s, k, i, fuel+1, h => by
    cases hp : (s.get i).parent with
    | none =>
      have hstop : stopHere s k i = true := by simp [stopHere, hp]
      simp [walkUpAux, chainUp, hp, List.find?, hstop]
    | some p =>
      by_cases hk : k < (s.get p).key
      · have hstop : stopHere s k i = false := by simp [stopHere, hp, hk]
        have h2 : (chainUp s p fuel).any (stopHere s k) = true := by
          simp only [chainUp, hp, List.any_cons, hstop, Bool.false_or] at h
          exact h
        have e1 : walkUpAux s k i (fuel+1) = walkUpAux s k p fuel := by
          simp [walkUpAux, hp, hk]
        have e2 : chainUp s i (fuel+1) = i :: chainUp s p fuel := by
          simp [chainUp, hp]
        rw [e1, e2, List.find?_cons_of_neg _ (by simp [hstop]),
          ← walkUp_spec s k p fuel h2]
      · have hstop : stopHere s k i = true := by simp [stopHere, hp, hk]
        have e1 : walkUpAux s k i (fuel+1) = i := by
          simp [walkUpAux, hp, hk]
        have e2 : chainUp s i (fuel+1) = i :: chainUp s p fuel := by
          simp [chainUp, hp]
        rw [e1, e2, List.find?_cons_of_pos _ hstop]

/-- The state of the C8 counterexample before the hinted insert: keys 10,
5, 20 inserted into an empty tree. -/
def c8pre : RBState :=
  rbRun (rbInit [10, 5, 20, 15] true) [ROp.ins 0, ROp.ins 1, ROp.ins 2]

/-- C8 amended: insert(node, hint) performs the normal leaf descent from
the ancestor reached by walking upward from the hint, and that walk stops
at the first ancestor at which the new key is no longer smaller than the
key of the parent of that ancestor; the node becomes linked, but the in-order
key sequence need not stay non-decreasing (in the counterexample run the
key-15 node is linked below the key-5 node, giving in-order 5, 15, 10,
20). -/
theorem C8_amended_thm :
    (∀ (s : RBState) (ni hint : Nat),
        rbInsertHinted s ni hint =
          insertLeaf s ni (some (walkUpAux s ((s.get ni).key) hint (s.nodes.length + 1)))) ∧
    (∀ (s : RBState) (k : Int) (i fuel : Nat),
        (chainUp s i fuel).any (stopHere s k) = true →
        some (walkUpAux s k i fuel) = (chainUp s i fuel).find? (stopHere s k)) ∧
    (rbInorderIds c8run).contains 3 = true ∧ rbInorderKeys c8run = [5, 15, 10, 20] :=
  ⟨fun _ _ _ => rfl, walkUp_spec, by decide, by decide⟩

/-- Witness for C8: the walk-up characterization applied to the concrete
counterexample state (hint = the key-5 node, new key 15). -/
theorem C8_amended_witness :
    (chainUp c8pre 1 5).any (stopHere c8pre 15) = true ∧
    some (walkUpAux c8pre 15 1 5) = (chainUp c8pre 1 5).find? (stopHere c8pre 15) :=
  ⟨by decide, C8_amended_thm.2.1 c8pre 15 1 5 (by decide)⟩

end Ygg

